import Mathlib

/-!
Verification development for the zealux phase-graph engine.

The definitions below are a shallow embedding of the TypeScript sources:
`src/phasenode.ts`, `src/process.ts`, `src/validator.ts` and the execution
module (`executeNodeRecursive` / `executeProcess`), plus the earlier
engine revision's `gatherResults` from `src/execution.ts`.

Modelling conventions:
- A JS value of output type is the same Lean type `V` as an input value
  (the source feeds `output as Input` to successors directly).
- An async function that may throw is a pure function into `Except`.
- JS `Map` and plain-object collections are association lists
  `List (String × α)`; `mapGet` models key access (keys are unique in the
  source's objects, so first-match lookup agrees with JS semantics).
- The engine is sequential here: fan-out dispatch is depth-first.  A
  `fuel` argument makes the graph recursion structurally terminating;
  running out of fuel is a model artifact reported as `RunError.fuel`.
- Phase invocations and termination-callback invocations are recorded in
  instrumentation fields (`trace`, `terminateCalls`) so that "the phase
  was invoked" is observable in the embedding.
-/

namespace Zealux

/-- Key lookup in an association list, modelling JS `obj[key]` / `Map.get`. -/
def mapGet {α : Type} : List (String × α) → String → Option α
  | [], _ => none
  | (k, v) :: rest, key => if k = key then some v else mapGet rest key

/-- The key set of an association list (`Object.keys`). -/
def mapKeys {α : Type} (l : List (String × α)) : List String :=
  l.map Prod.fst

/-- `src/phase.ts`: `Phase = { name, execute: (input) => Promise<output> }`.
A throwing/rejecting `execute` is modelled as `Except.error`. -/
structure Phase (V E : Type) where
  name : String
  execute : V → Except E V

/-- `src/phasenode.ts`: `Connection = { targetPhaseNodeId, transform? }`,
where `transform : (output, context) => [input, context]` may throw. -/
structure Connection (V C E : Type) where
  targetPhaseNodeId : String
  transform : Option (V → C → Except E (V × C))

/-- A node's `next` field: either an array of connections or a
termination-shaped object `{ id, terminate? }`.  The source probes the
shape dynamically (`Array.isArray`, `isTermination`); the two shapes it
distinguishes are exactly these constructors, with `terminate?` as an
`Option` since the declaration marks it optional. -/
inductive Next (V C E : Type) where
  | conns : List (Connection V C E) → Next V C E
  | term : String → Option (V → C → V) → Next V C E

/-- `src/phasenode.ts`: `isTermination` requires `targetPhaseNodeId` to be
undefined, `terminate` to be a function, and `id` to be a string.  A
termination-shaped value with no `terminate` function therefore fails
this guard; so does any array (an array has no `terminate` function). -/
def nextIsTermination {V C E : Type} : Next V C E → Bool
  | .term _ (some _) => true
  | _ => false

/-- The engine's fan-out guard:
`node.next && Array.isArray(node.next) && node.next.length > 0 && node.next.every(isConnection)`.
In the typed embedding every array element is a `Connection`, so the
guard holds exactly for a non-empty connection list. -/
def nextIsConnList {V C E : Type} : Next V C E → Bool
  | .conns cs => !cs.isEmpty
  | _ => false

/-- `src/phasenode.ts`: `PhaseNode = { id, phase, next }`. -/
structure PhaseNode (V C E : Type) where
  id : String
  phase : Phase V E
  next : Next V C E

/-- `src/process.ts`: `Process = { name, context, phases, startPhaseId }`. -/
structure Process (V C E : Type) where
  name : String
  context : C
  phases : List (String × PhaseNode V C E)
  startPhaseId : String

/-- An error recorded or propagated during a run.  `user` wraps a value
thrown by a phase or a transform; `nodeNotFound` is the engine's own
`PhaseNode with ID ... not found` error; `fuel` is the model artifact for
exhausting the recursion budget; `pendingShared` stands for awaiting an
in-flight execution's handle — in this sequential embedding a node that
is in flight but not yet memoized can never be re-entered (results are
cached before fan-out), so the branch is dead, but it is kept to mirror
the source's check. -/
inductive RunError (E : Type) where
  | user : E → RunError E
  | nodeNotFound : String → RunError E
  | fuel : RunError E
  | pendingShared : String → RunError E
deriving DecidableEq

/-- The engine's run-scoped state (`ExecutionState` in the source):
the process (whose `context` field is mutated in place by transforms),
the memoized per-node outputs (`phaseResults`), the termination / implicit
end results (`results`), the in-flight set (`activeExecutions`, here just
the ids), and the error list.  `trace` and `terminateCalls` are
instrumentation recording, in order, each phase invocation and each
invocation of a termination's `terminate` callback (with its arguments);
they model the observable calls the source makes. -/
structure ExecState (V C E : Type) where
  process : Process V C E
  phaseResults : List (String × V)
  results : List (String × V)
  activeExecutions : List String
  errors : List (String × RunError E)
  trace : List String
  terminateCalls : List (String × V × C)

/-- The source's fan-out loop over `node.next` (the body of step 4 of
`executeNodeRecursive`): per connection, apply the optional
`transform(output, context)`; a throwing transform records an error keyed
by the *target* node id and skips only that edge (`continue`); otherwise
the context replacement is written back and the target node is
dispatched.  The child's own result/failure is not awaited by the parent
(its promise is only collected), so only its state effects remain.
`execChild` abstracts the mutually recursive dispatch
(`executeNodeRecursive` at the current fuel), keeping the recursion
structural. -/
def runConnections {V C E : Type}
    (execChild : String → V → ExecState V C E → Except (RunError E) V × ExecState V C E) :
    List (Connection V C E) → V → ExecState V C E → ExecState V C E
  | [], _, st => st
  | c :: rest, output, st =>
    match c.transform with
    | none =>
      let st1 := (execChild c.targetPhaseNodeId output st).2
      runConnections execChild rest output st1
    | some tr =>
      match tr output st.process.context with
      | .error e =>
        let st1 : ExecState V C E :=
          { st with errors := st.errors ++ [(c.targetPhaseNodeId, .user e)] }
        runConnections execChild rest output st1
      | .ok (nextInput, nextContext) =>
        let st1 : ExecState V C E :=
          { st with process := { st.process with context := nextContext } }
        let st2 := (execChild c.targetPhaseNodeId nextInput st1).2
        runConnections execChild rest output st2

/-- The execution module's `executeNodeRecursive`, sequentialized.
Steps mirror the source: (1) return a cached result; (2) an in-flight hit
would share the pending handle (dead in this sequential embedding, see
`RunError.pendingShared`); then look the node up, mark it active, invoke
its phase; on success memoize the output and process `next`
(connection fan-out / termination / implicit end); on failure record the
error and rethrow; always clear the in-flight marker (the `finally`). -/
def executeNodeRecursive {V C E : Type} :
    Nat → String → V → ExecState V C E → Except (RunError E) V × ExecState V C E
  | 0, _, _, st => (.error .fuel, st)
  | fuel + 1, nodeId, input, st =>
    match mapGet st.phaseResults nodeId with
    | some v => (.ok v, st)
    | none =>
      if nodeId ∈ st.activeExecutions then
        (.error (.pendingShared nodeId), st)
      else
        match mapGet st.process.phases nodeId with
        | none =>
          (.error (.nodeNotFound nodeId),
           { st with errors := st.errors ++ [(nodeId, .nodeNotFound nodeId)] })
        | some node =>
          let st1 : ExecState V C E :=
            { st with activeExecutions := nodeId :: st.activeExecutions,
                      trace := st.trace ++ [nodeId] }
          match node.phase.execute input with
          | .error e =>
            (.error (.user e),
             { st1 with errors := st1.errors ++ [(nodeId, .user e)],
                        activeExecutions := st1.activeExecutions.erase nodeId })
          | .ok output =>
            let st2 : ExecState V C E :=
              { st1 with phaseResults := st1.phaseResults ++ [(nodeId, output)] }
            let st3 : ExecState V C E :=
              match node.next with
              | .conns (c :: cs) =>
                -- `Array.isArray(next) && next.length > 0 && next.every(isConnection)`
                runConnections (executeNodeRecursive fuel) (c :: cs) output st2
              | .term tid (some _f) =>
                -- `isTermination(next)`: invoke `terminate(output, context)`
                -- (the invocation and its arguments go to `terminateCalls`),
                -- discard its return value, store the raw output under the
                -- termination's own id.
                { st2 with
                    terminateCalls :=
                      st2.terminateCalls ++ [(tid, output, st2.process.context)],
                    results := st2.results ++ [(tid, output)] }
              | .conns [] =>
                -- neither guard matches: implicit end, store under node id
                { st2 with results := st2.results ++ [(nodeId, output)] }
              | .term _ none =>
                -- a termination without a `terminate` function fails
                -- `isTermination` and also lands in the implicit-end branch
                { st2 with results := st2.results ++ [(nodeId, output)] }
            (.ok output,
             { st3 with activeExecutions := st3.activeExecutions.erase nodeId })


/-! ## Validator (`src/validator.ts`, revision in `src/unnamed/part_006`)

The defect strings, verbatim from the source.  Checks that guard against
shapes a typed value cannot take (`phases` not an object, a node that is
not an object, `phase.execute` not a function, `next` missing, a
non-callable `transform`) are vacuous in this embedding and noted where
they occur.  The final reachability walk pushes no errors and is omitted
for the same reason (it only feeds a local `visited` set). -/

def processMissingMessage : String :=
  "Process definition is missing or not an object."

def startPhaseIdInvalidMessage : String :=
  "Process 'startPhaseId' is missing or invalid."

def startPhaseIdDanglingMessage (sid : String) : String :=
  "Start phase ID \"" ++ sid ++ "\" does not exist in the phases collection."

def noPhasesMessage : String :=
  "Process has a startPhaseId but no phases defined."

def idMismatchMessage (nid key : String) : String :=
  "PhaseNode ID \"" ++ nid ++ "\" does not match its key \"" ++ key ++
    "\" in the phases collection."

def invalidConnectionMessage (key : String) : String :=
  "PhaseNode \"" ++ key ++
    "\" has an invalid connection (targetPhaseNodeId missing or invalid)."

def danglingTargetMessage (key target : String) : String :=
  "PhaseNode \"" ++ key ++ "\" has a connection to non-existent targetPhaseNodeId \"" ++
    target ++ "\"."

def invalidTerminationMessage (key : String) : String :=
  "PhaseNode \"" ++ key ++
    "\" has an invalid Termination object for 'next'. It must have 'id' (string) and 'terminate' (function) properties."

/-- Defects of one connection of node `key`: a missing/empty target id, or
a dangling target (`if` / `else if` in the source, so at most one of the
two).  The `transform`-is-callable check is vacuous here. -/
def connectionErrors {V C E : Type} (p : Process V C E) (key : String)
    (c : Connection V C E) : List String :=
  if c.targetPhaseNodeId = "" then [invalidConnectionMessage key]
  else if (mapGet p.phases c.targetPhaseNodeId).isNone then
    [danglingTargetMessage key c.targetPhaseNodeId]
  else []

/-- Defects of one node of the `phases` collection: id/key mismatch, then
the `next` probe — an array is checked connection-wise; a non-array object
must have a string `id` and a **function** `terminate` to pass as a
Termination (the `id` check is vacuous here, the `terminate` check is
not). -/
def nodeErrors {V C E : Type} (p : Process V C E) (key : String)
    (node : PhaseNode V C E) : List String :=
  (if node.id ≠ key then [idMismatchMessage node.id key] else []) ++
    (match node.next with
     | .conns cs => cs.flatMap (connectionErrors p key)
     | .term _ (some _) => []
     | .term _ none => [invalidTerminationMessage key])

/-- `validateProcess` on an object-shaped input: accumulate, in source
order, the `startPhaseId` checks, the empty-`phases` check, and the
per-node checks. -/
def validateProcess {V C E : Type} (p : Process V C E) : List String :=
  (if p.startPhaseId = "" then [startPhaseIdInvalidMessage]
   else if (mapGet p.phases p.startPhaseId).isNone then
     [startPhaseIdDanglingMessage p.startPhaseId]
   else []) ++
  (if p.phases.isEmpty && p.startPhaseId != "" then [noPhasesMessage] else []) ++
  p.phases.flatMap (fun kv => nodeErrors p kv.1 kv.2)

/-- The validator's dynamic input: either something that is `null`,
`undefined` or not an object at all, or an object shaped like a process. -/
inductive ProcessValue (V C E : Type) where
  | notObject : ProcessValue V C E
  | obj : Process V C E → ProcessValue V C E

/-- `validateProcess`'s root guard: a non-object input yields the single
defect `processMissingMessage` and probing stops. -/
def validateProcessValue {V C E : Type} : ProcessValue V C E → List String
  | .notObject => [processMissingMessage]
  | .obj p => validateProcess p

/-! ## `executeProcess` (current revision) -/

/-- The fresh run state `executeProcess` builds. -/
def initialState {V C E : Type} (p : Process V C E) : ExecState V C E :=
  { process := p, phaseResults := [], results := [], activeExecutions := [],
    errors := [], trace := [], terminateCalls := [] }

/-- The aggregated rejection message for a process that fails validation. -/
def invalidProcessMessage (errs : List String) : String :=
  "Invalid process definition:\n" ++ String.intercalate "\n" errs

/-- The defensive post-validation rejection message. -/
def startNotFoundMessage (sid : String) : String :=
  "Start phase ID \"" ++ sid ++ "\" not found in process phases."

/-- `executeProcess`: validate (non-empty defect list rejects the call with
the aggregated message, before any run state exists); defensively reject
if the start node is absent; then run the start node's branch.  The
source wraps that run in `try/catch` and only logs the caught error, so
the call resolves with the final state regardless of the run's outcome
(the source returns the triple `[results, phaseResults, context]`, all of
which are fields of the returned state). -/
def executeProcess {V C E : Type} (fuel : Nat) (p : Process V C E) (initialInput : V) :
    Except String (ExecState V C E) :=
  if validateProcess p ≠ [] then
    .error (invalidProcessMessage (validateProcess p))
  else
    let st := initialState p
    if (mapGet st.process.phases st.process.startPhaseId).isNone then
      .error (startNotFoundMessage st.process.startPhaseId)
    else
      .ok (executeNodeRecursive fuel st.process.startPhaseId initialInput st).2

/-! ## Result aggregation of the earlier engine revision
(`src/execution.ts`, `gatherResults`)

That revision's `PhaseNode` (`PhaseNode.Instance`) has a plain connection
list for `next` (transforms take only the output) and an optional
`isEndPhase` flag (JS truthiness: `undefined` ≈ `false`). -/

structure OldConnection (V : Type) where
  targetPhaseNodeId : String
  transform : Option (V → V)

structure OldPhaseNode (V E : Type) where
  id : String
  phase : Phase V E
  next : List (OldConnection V)
  isEndPhase : Bool

/-- The slice of that revision's `ExecutionState` that `gatherResults`
reads: `state.process.phases`, the memoized outputs, and the error list
(the errors only feed `console.warn` diagnostics). -/
structure OldExecState (V E : Type) where
  phases : List (String × OldPhaseNode V E)
  phaseResults : List (String × V)
  errors : List (String × RunError E)

/-- `gatherResults`: if any node declares `isEndPhase`, the results map
collects exactly the end-phase nodes that completed (a non-completed end
phase is only warned about); only when no node declares `isEndPhase` does
the implicit-leaf fallback collect every completed node with no outgoing
connections. -/
def gatherResults {V E : Type} (st : OldExecState V E) : List (String × V) :=
  let hasExplicitEndPhases := st.phases.any (fun kv => kv.2.isEndPhase)
  if hasExplicitEndPhases then
    st.phases.filterMap (fun kv =>
      if kv.2.isEndPhase then (mapGet st.phaseResults kv.1).map (fun v => (kv.1, v))
      else none)
  else
    st.phases.filterMap (fun kv =>
      if kv.2.next.isEmpty then (mapGet st.phaseResults kv.1).map (fun v => (kv.1, v))
      else none)

/-! ## Helper lemmas about `mapGet` -/

theorem mapGet_append_some {α : Type} {l : List (String × α)} (l' : List (String × α))
    {k : String} {v : α} (h : mapGet l k = some v) : mapGet (l ++ l') k = some v := by
  induction l with
  | nil => simp [mapGet] at h
  | cons kv rest ih =>
    obtain ⟨a, b⟩ := kv
    by_cases hk : a = k <;> simp [mapGet, hk] at h ⊢ <;> simp_all

theorem mapGet_append_none {α : Type} {l : List (String × α)} (l' : List (String × α))
    {k : String} (h : mapGet l k = none) : mapGet (l ++ l') k = mapGet l' k := by
  induction l with
  | nil => simp [mapGet]
  | cons kv rest ih =>
    obtain ⟨a, b⟩ := kv
    by_cases hk : a = k
    · simp [mapGet, hk] at h
    · simp [mapGet, hk] at h ⊢
      simp_all

theorem mapGet_append_isSome {α : Type} {l : List (String × α)} (l' : List (String × α))
    {k : String} (h : (mapGet l k).isSome = true) : (mapGet (l ++ l') k).isSome = true := by
  obtain ⟨v, hv⟩ := Option.isSome_iff_exists.mp h
  simp [mapGet_append_some l' hv]

theorem mem_of_mapGet_some {α : Type} {l : List (String × α)} {k : String} {v : α}
    (h : mapGet l k = some v) : (k, v) ∈ l := by
  induction l with
  | nil => simp [mapGet] at h
  | cons kv rest ih =>
    obtain ⟨a, b⟩ := kv
    by_cases hk : a = k
    · subst hk
      simp [mapGet] at h
      simp [h]
    · simp [mapGet, hk] at h
      exact List.mem_cons_of_mem _ (ih h)

/-! ## Step lemmas for the engine

Each lemma captures one branch of `executeNodeRecursive` explicitly.
`markInvoked` and `clearInFlight` are statement-side abbreviations for
the state changes of marking a node in flight + tracing + memoizing, and
of the `finally` cleanup. -/

/-- State change when a node's phase has been invoked and returned
`out`: the node is marked in flight, traced, and its output memoized. -/
def markInvoked {V C E : Type} (nodeId : String) (out : V) (st : ExecState V C E) :
    ExecState V C E :=
  { st with activeExecutions := nodeId :: st.activeExecutions,
            trace := st.trace ++ [nodeId],
            phaseResults := st.phaseResults ++ [(nodeId, out)] }

/-- The `finally` cleanup: drop the node from the in-flight set. -/
def clearInFlight {V C E : Type} (nodeId : String) (st : ExecState V C E) :
    ExecState V C E :=
  { st with activeExecutions := st.activeExecutions.erase nodeId }

/-- Branch 1: a memoized node returns its cached result directly, with no
state change and no phase invocation. -/
theorem execNode_cached {V C E : Type} (fuel : Nat) (nodeId : String) (input : V)
    (st : ExecState V C E) (v : V) (h : mapGet st.phaseResults nodeId = some v) :
    executeNodeRecursive (fuel + 1) nodeId input st = (.ok v, st) := by
  simp [executeNodeRecursive, h]

/-- Failure branch: a throwing phase records the error under the node's
own id, leaves `phaseResults` and `results` untouched, and the `finally`
restores the in-flight set. -/
theorem execNode_fail {V C E : Type} (fuel : Nat) (nodeId : String) (input : V)
    (st : ExecState V C E) (node : PhaseNode V C E) (e : E)
    (hmiss : mapGet st.phaseResults nodeId = none)
    (hact : nodeId ∉ st.activeExecutions)
    (hnode : mapGet st.process.phases nodeId = some node)
    (hbad : node.phase.execute input = .error e) :
    executeNodeRecursive (fuel + 1) nodeId input st =
      (.error (.user e),
       { st with errors := st.errors ++ [(nodeId, .user e)],
                 trace := st.trace ++ [nodeId] }) := by
  simp [executeNodeRecursive, hmiss, hact, hnode, hbad]

/-- Success with a non-empty connection list: fan out. -/
theorem execNode_conns {V C E : Type} (fuel : Nat) (nodeId : String) (input : V)
    (st : ExecState V C E) (node : PhaseNode V C E) (out : V)
    (c : Connection V C E) (cs : List (Connection V C E))
    (hmiss : mapGet st.phaseResults nodeId = none)
    (hact : nodeId ∉ st.activeExecutions)
    (hnode : mapGet st.process.phases nodeId = some node)
    (hok : node.phase.execute input = .ok out)
    (hnext : node.next = .conns (c :: cs)) :
    executeNodeRecursive (fuel + 1) nodeId input st =
      (.ok out,
       clearInFlight nodeId
         (runConnections (executeNodeRecursive fuel) (c :: cs) out
           (markInvoked nodeId out st))) := by
  simp [executeNodeRecursive, hmiss, hact, hnode, hok, hnext, markInvoked, clearInFlight]

/-- Success with a termination that carries a `terminate` callback: the
callback is invoked with `(out, context)` and the **raw** output is
stored under the termination's own id. -/
theorem execNode_term_some {V C E : Type} (fuel : Nat) (nodeId : String) (input : V)
    (st : ExecState V C E) (node : PhaseNode V C E) (out : V)
    (tid : String) (f : V → C → V)
    (hmiss : mapGet st.phaseResults nodeId = none)
    (hact : nodeId ∉ st.activeExecutions)
    (hnode : mapGet st.process.phases nodeId = some node)
    (hok : node.phase.execute input = .ok out)
    (hnext : node.next = .term tid (some f)) :
    executeNodeRecursive (fuel + 1) nodeId input st =
      (.ok out,
       { st with
           phaseResults := st.phaseResults ++ [(nodeId, out)],
           trace := st.trace ++ [nodeId],
           terminateCalls := st.terminateCalls ++ [(tid, out, st.process.context)],
           results := st.results ++ [(tid, out)] }) := by
  simp [executeNodeRecursive, hmiss, hact, hnode, hok, hnext]

/-- Success with a termination lacking a `terminate` callback: it fails
the `isTermination` guard and is handled as an implicit end — the output
is stored under the **node's** id, not the termination's. -/
theorem execNode_term_none {V C E : Type} (fuel : Nat) (nodeId : String) (input : V)
    (st : ExecState V C E) (node : PhaseNode V C E) (out : V) (tid : String)
    (hmiss : mapGet st.phaseResults nodeId = none)
    (hact : nodeId ∉ st.activeExecutions)
    (hnode : mapGet st.process.phases nodeId = some node)
    (hok : node.phase.execute input = .ok out)
    (hnext : node.next = .term tid none) :
    executeNodeRecursive (fuel + 1) nodeId input st =
      (.ok out,
       { st with
           phaseResults := st.phaseResults ++ [(nodeId, out)],
           trace := st.trace ++ [nodeId],
           results := st.results ++ [(nodeId, out)] }) := by
  simp [executeNodeRecursive, hmiss, hact, hnode, hok, hnext]

/-- Success with an empty connection list: implicit end, stored under the
node's own id. -/
theorem execNode_conns_nil {V C E : Type} (fuel : Nat) (nodeId : String) (input : V)
    (st : ExecState V C E) (node : PhaseNode V C E) (out : V)
    (hmiss : mapGet st.phaseResults nodeId = none)
    (hact : nodeId ∉ st.activeExecutions)
    (hnode : mapGet st.process.phases nodeId = some node)
    (hok : node.phase.execute input = .ok out)
    (hnext : node.next = .conns []) :
    executeNodeRecursive (fuel + 1) nodeId input st =
      (.ok out,
       { st with
           phaseResults := st.phaseResults ++ [(nodeId, out)],
           trace := st.trace ++ [nodeId],
           results := st.results ++ [(nodeId, out)] }) := by
  simp [executeNodeRecursive, hmiss, hact, hnode, hok, hnext]

/-! ## Validator helper lemmas -/

/-- A process that validates cleanly has its start node present: either
the `startPhaseId` is empty (first defect) or it dangles (second defect),
both of which make the defect list non-empty. -/
theorem validateProcess_start_isSome {V C E : Type} {p : Process V C E}
    (h : validateProcess p = []) : (mapGet p.phases p.startPhaseId).isSome = true := by
  by_cases hsid : p.startPhaseId = ""
  · simp [validateProcess, hsid] at h
  · by_cases hdangle : (mapGet p.phases p.startPhaseId).isNone
    · simp [validateProcess, hsid, hdangle] at h
    · simpa [Option.isNone_iff_eq_none, ← Option.ne_none_iff_isSome] using hdangle

/-! ## Claim theorems -/

/-- C7: `validateProcess` is a total function of its (dynamic) input — in
this embedding it is a pure Lean function, the rendering of
"side-effect-free; never throws; always returns a list" — and on an input
that is null, absent, or not an object it returns exactly the
single-element list `["Process definition is missing or not an object."]`
with no further probing (no other defect is ever attached). -/
theorem validateProcessValue_nonObject (V C E : Type) :
    validateProcessValue (ProcessValue.notObject (V := V) (C := C) (E := E)) =
      [processMissingMessage] := rfl

/-- C10: whenever `validateProcess` returns the empty defect list,
`process.phases[process.startPhaseId]` is defined, so the defensive
post-validation rejection branch of `executeProcess` (throwing
`Start phase ID ... not found in process phases.`) is unreachable. -/
theorem validated_start_phase_exists {V C E : Type} (p : Process V C E) (input : V)
    (fuel : Nat) (hval : validateProcess p = []) :
    (mapGet p.phases p.startPhaseId).isSome = true ∧
    executeProcess fuel p input ≠ .error (startNotFoundMessage p.startPhaseId) := by
  have hs := validateProcess_start_isSome hval
  refine ⟨hs, ?_⟩
  simp [executeProcess, hval, initialState, Option.isNone_iff_eq_none,
        Option.isSome_iff_ne_none.mp hs]

/-- C10 witness: a concrete clean process hits both conclusions. -/
def c10Proc : Process Nat Unit Unit :=
  { name := "c10", context := (), startPhaseId := "p1",
    phases := [("p1", ⟨"p1", ⟨"phase1", fun n => .ok (n + 1)⟩, .conns []⟩)] }

theorem validated_start_phase_exists_witness :
    (mapGet c10Proc.phases c10Proc.startPhaseId).isSome = true ∧
    executeProcess 3 c10Proc 0 ≠ .error (startNotFoundMessage c10Proc.startPhaseId) :=
  validated_start_phase_exists c10Proc 0 3 (by decide)

/-- C4: a process with a non-empty defect list makes `executeProcess`
fail the whole call with the aggregated message
(`"Invalid process definition:\n"` followed by every defect joined by
newlines).  The rejection happens before the run state is even
constructed, so no phase's `execute` is invoked: the error return carries
no execution state at all. -/
theorem invalid_definition_rejects {V C E : Type} (p : Process V C E) (input : V)
    (fuel : Nat) (h : validateProcess p ≠ []) :
    executeProcess fuel p input = .error (invalidProcessMessage (validateProcess p)) := by
  simp [executeProcess, h]

/-- C4 witness: a process whose `startPhaseId` dangles is rejected with
the aggregated message. -/
def c4Proc : Process Nat Unit Unit :=
  { name := "c4", context := (), startPhaseId := "nope",
    phases := [("p1", ⟨"p1", ⟨"phase1", fun n => .ok (n + 1)⟩, .conns []⟩)] }

theorem invalid_definition_rejects_witness :
    executeProcess 3 c4Proc 0 = .error (invalidProcessMessage (validateProcess c4Proc)) :=
  invalid_definition_rejects c4Proc 0 3 (by decide)

/-- C5: in the earlier revision's aggregator, as soon as any node declares
`isEndPhase`, every entry of the gathered result set belongs to a node
marked as an end phase and carries that node's completed output — in
particular no entry for a completed implicit leaf that is not an end —
and conversely every end-phase node that completed contributes its
entry. -/
theorem gatherResults_end_policy {V E : Type} (st : OldExecState V E)
    (hend : ∃ kv ∈ st.phases, kv.2.isEndPhase = true) :
    (∀ x ∈ gatherResults st,
       ∃ kv ∈ st.phases, kv.1 = x.1 ∧ kv.2.isEndPhase = true ∧
         mapGet st.phaseResults x.1 = some x.2) ∧
    (∀ kv ∈ st.phases, kv.2.isEndPhase = true →
       ∀ v, mapGet st.phaseResults kv.1 = some v → (kv.1, v) ∈ gatherResults st) := by
  have hflag : (st.phases.any fun kv => kv.2.isEndPhase) = true := by
    obtain ⟨kv, hmem, hkv⟩ := hend
    exact List.any_eq_true.mpr ⟨kv, hmem, hkv⟩
  constructor
  · intro x hx
    simp only [gatherResults, hflag, if_true, List.mem_filterMap] at hx
    obtain ⟨kv, hmem, hfk⟩ := hx
    by_cases hisend : kv.2.isEndPhase = true
    · rw [if_pos hisend] at hfk
      obtain ⟨v, hv, hxv⟩ := Option.map_eq_some'.mp hfk
      refine ⟨kv, hmem, ?_, hisend, ?_⟩ <;> simp [← hxv, hv]
    · rw [if_neg hisend] at hfk
      cases hfk
  · intro kv hmem hisend v hv
    simp only [gatherResults, hflag, if_true, List.mem_filterMap]
    exact ⟨kv, hmem, by simp [hisend, hv]⟩

/-- C5 witness data: node `a` is a declared end phase, node `b` is a
completed implicit leaf (no outgoing connections) that is *not* an end. -/
def c5NodeA : OldPhaseNode Nat Unit :=
  ⟨"a", ⟨"pa", fun n => .ok n⟩, [⟨"b", none⟩], true⟩

def c5NodeB : OldPhaseNode Nat Unit :=
  ⟨"b", ⟨"pb", fun n => .ok n⟩, [], false⟩

def c5St : OldExecState Nat Unit :=
  ⟨[("a", c5NodeA), ("b", c5NodeB)], [("a", 1), ("b", 2)], []⟩

theorem gatherResults_end_policy_witness :
    gatherResults c5St = [("a", 1)] ∧
    (∃ kv ∈ c5St.phases, kv.1 = "a" ∧ kv.2.isEndPhase = true ∧
       mapGet c5St.phaseResults "a" = some 1) ∧
    ("a", 1) ∈ gatherResults c5St :=
  ⟨by decide,
   (gatherResults_end_policy c5St ⟨("a", c5NodeA), List.mem_cons_self _ _, rfl⟩).1
     ("a", 1) (by decide),
   (gatherResults_end_policy c5St ⟨("a", c5NodeA), List.mem_cons_self _ _, rfl⟩).2
     ("a", c5NodeA) (List.mem_cons_self _ _) rfl 1 (by decide)⟩

/-! ## C8: a Termination without a `terminate` callback -/

def c8Node : PhaseNode Nat Unit Unit :=
  ⟨"p1", ⟨"phase1", fun n => .ok (n + 1)⟩, .term "t" none⟩

def c8Proc : Process Nat Unit Unit :=
  { name := "c8", context := (), startPhaseId := "p1", phases := [("p1", c8Node)] }

/-- C8 counterexample: for a node whose `next` is a Termination-shaped
object with a string `id` but no `terminate` function, the validator
*does* report a defect (the claim says it reports none), and the engine
does *not* treat the `next` as the termination variant: the run stores
the output under the node's own id `p1`, not under the termination's id
`t`. -/
theorem termination_without_callback_cex :
    validateProcess c8Proc = [invalidTerminationMessage "p1"] ∧
    (executeNodeRecursive 5 "p1" 0 (initialState c8Proc)).2.results = [("p1", 1)] ∧
    mapGet (executeNodeRecursive 5 "p1" 0 (initialState c8Proc)).2.results "t" = none :=
  ⟨by decide, by decide, by decide⟩

/-- C8 amended: the `terminate` callback is *required*, not optional: a
node whose `next` is a Termination shape without a `terminate` function
is reported as a defect by the validator (the invalid-Termination
message), and the engine's `isTermination` guard rejects such a `next`,
falling through to the implicit-end branch which stores the output under
the node's own id. -/
theorem termination_requires_callback {V C E : Type} (p : Process V C E)
    (key : String) (node : PhaseNode V C E) (tid : String)
    (hmem : (key, node) ∈ p.phases) (hnext : node.next = .term tid none) :
    invalidTerminationMessage key ∈ validateProcess p ∧
    ∀ (fuel : Nat) (input : V) (st : ExecState V C E) (out : V),
      mapGet st.phaseResults key = none → key ∉ st.activeExecutions →
      mapGet st.process.phases key = some node →
      node.phase.execute input = .ok out →
      (executeNodeRecursive (fuel + 1) key input st).2.results =
        st.results ++ [(key, out)] := by
  constructor
  · have hmsg : invalidTerminationMessage key ∈ nodeErrors p key node := by
      simp [nodeErrors, hnext]
    exact List.mem_append_right _
      (List.mem_flatMap.mpr ⟨(key, node), hmem, hmsg⟩)
  · intro fuel input st out hmiss hact hnode hok
    rw [execNode_term_none fuel key input st node out tid hmiss hact hnode hok hnext]

theorem termination_requires_callback_witness :
    invalidTerminationMessage "p1" ∈ validateProcess c8Proc ∧
    (executeNodeRecursive 4 "p1" 7 (initialState c8Proc)).2.results = [("p1", 8)] :=
  ⟨(termination_requires_callback c8Proc "p1" c8Node "t"
      (List.mem_cons_self _ _) rfl).1,
   by
    have h := (termination_requires_callback c8Proc "p1" c8Node "t"
      (List.mem_cons_self _ _) rfl).2 3 7 (initialState c8Proc) 8 rfl
      (by decide) rfl rfl
    simpa [initialState] using h⟩

/-! ## C1: termination with a `terminate` callback -/

def c1TerminateFn : Nat → Unit → Nat := fun n _ => n * 100

def c1Node : PhaseNode Nat Unit Unit :=
  ⟨"p1", ⟨"phase1", fun n => .ok (n + 1)⟩, .term "t" (some c1TerminateFn)⟩

def c1Proc : Process Nat Unit Unit :=
  { name := "c1", context := (), startPhaseId := "p1", phases := [("p1", c1Node)] }

def c1St : ExecState Nat Unit Unit :=
  (executeNodeRecursive 5 "p1" 0 (initialState c1Proc)).2

/-- C1 counterexample: the phase outputs `1` and the `terminate` callback
returns `100`, yet the value stored under the termination's id `t` is the
raw output `1`, not the callback's return value — the callback *is*
invoked (with the output and current context), but its return value is
discarded. -/
theorem termination_stores_raw_output_cex :
    executeProcess 5 c1Proc 0 = .ok c1St ∧
    mapGet c1St.results "t" = some 1 ∧
    c1TerminateFn 1 () = 100 ∧
    mapGet c1St.results "t" ≠ some (c1TerminateFn 1 ()) ∧
    c1St.terminateCalls = [("t", 1, ())] :=
  ⟨rfl, by decide, rfl, by decide, by decide⟩

/-- C1 amended: when a node's `next` is a Termination carrying a
`terminate` callback, after the phase completes the engine invokes the
callback with `(output, context)` and stores the **raw phase output**
under the termination's own id in the results set (the callback's return
value is discarded); when no callback is present the `next` does not pass
the `isTermination` guard at all and the output is stored under the
node's own id instead (see the C8 development). -/
theorem terminate_called_raw_output_stored {V C E : Type} (fuel : Nat)
    (nodeId : String) (input : V) (st : ExecState V C E) (node : PhaseNode V C E)
    (out : V) (tid : String) (f : V → C → V)
    (hmiss : mapGet st.phaseResults nodeId = none)
    (hact : nodeId ∉ st.activeExecutions)
    (hnode : mapGet st.process.phases nodeId = some node)
    (hok : node.phase.execute input = .ok out)
    (hnext : node.next = .term tid (some f)) :
    (executeNodeRecursive (fuel + 1) nodeId input st).2.terminateCalls =
      st.terminateCalls ++ [(tid, out, st.process.context)] ∧
    (executeNodeRecursive (fuel + 1) nodeId input st).2.results =
      st.results ++ [(tid, out)] := by
  rw [execNode_term_some fuel nodeId input st node out tid f hmiss hact hnode hok hnext]
  exact ⟨rfl, rfl⟩

theorem terminate_called_raw_output_stored_witness :
    (executeNodeRecursive 4 "p1" 0 (initialState c1Proc)).2.terminateCalls =
      [("t", 1, ())] ∧
    (executeNodeRecursive 4 "p1" 0 (initialState c1Proc)).2.results = [("t", 1)] := by
  have h := terminate_called_raw_output_stored 3 "p1" 0 (initialState c1Proc)
    c1Node 1 "t" c1TerminateFn rfl (by decide) rfl rfl rfl
  exact ⟨by simpa [initialState] using h.1, by simpa [initialState] using h.2⟩

/-! ## C2: failure of the start node's phase -/

def c2Proc : Process Nat Unit Unit :=
  { name := "c2", context := (), startPhaseId := "p1",
    phases :=
      [("p1", ⟨"p1", ⟨"boom", fun _ => .error ()⟩, .conns [⟨"p2", none⟩]⟩),
       ("p2", ⟨"p2", ⟨"phase2", fun n => .ok (n + 2)⟩, .conns []⟩)] }

def c2St : ExecState Nat Unit Unit :=
  (executeNodeRecursive 5 "p1" 0 (initialState c2Proc)).2

/-- C2 counterexample: `c2Proc` is valid and its start phase throws, yet
`executeProcess` does **not** fail: the call resolves (`.ok`) with an
empty result set, the error recorded under the start node's id, and no
successor executed.  The source catches the awaited start-branch error
and only logs it. -/
theorem start_phase_failure_resolves_cex :
    validateProcess c2Proc = [] ∧
    executeProcess 5 c2Proc 0 = .ok c2St ∧
    (executeProcess 5 c2Proc 0).isOk = true ∧
    c2St.errors = [("p1", .user ())] ∧
    c2St.results = [] ∧
    c2St.trace = ["p1"] :=
  ⟨by decide, rfl, rfl, by decide, by decide, by decide⟩

/-- C2 amended: once validation passes, `executeProcess` never rejects —
the call rejects only on a non-empty defect list (or the impossible
post-validation missing-start defensive check).  In particular a failure
of the start node's own phase degrades like any other failure: the call
resolves with the partial (here empty) result set and the error recorded
under the start node's id. -/
theorem executeProcess_resolves_after_validation {V C E : Type} (p : Process V C E)
    (input : V) (fuel : Nat) (hval : validateProcess p = []) :
    (executeProcess fuel p input).isOk = true ∧
    (∀ (node : PhaseNode V C E) (e : E) (f : Nat),
      mapGet p.phases p.startPhaseId = some node →
      node.phase.execute input = .error e →
      executeProcess (f + 1) p input =
        .ok { process := p, phaseResults := [], results := [],
              activeExecutions := [],
              errors := [(p.startPhaseId, .user e)],
              trace := [p.startPhaseId], terminateCalls := [] }) := by
  have hs := validateProcess_start_isSome (p := p) hval
  constructor
  · simp [executeProcess, hval, initialState, Option.isNone_iff_eq_none,
          Option.isSome_iff_ne_none.mp hs, Except.isOk, Except.toBool]
  · intro node e f hnode hbad
    have hrun := execNode_fail (V := V) (C := C) (E := E) f p.startPhaseId input
      (initialState p) node e rfl (by simp [initialState]) hnode hbad
    simp [executeProcess, hval, initialState, Option.isNone_iff_eq_none,
          Option.isSome_iff_ne_none.mp hs] at hrun ⊢
    rw [hrun]

theorem executeProcess_resolves_after_validation_witness :
    (executeProcess 5 c2Proc 0).isOk = true ∧
    executeProcess 5 c2Proc 0 =
      .ok { process := c2Proc, phaseResults := [], results := [],
            activeExecutions := [], errors := [("p1", .user ())],
            trace := ["p1"], terminateCalls := [] } :=
  ⟨(executeProcess_resolves_after_validation c2Proc 0 5 (by decide)).1,
   (executeProcess_resolves_after_validation c2Proc 0 5 (by decide)).2
     ⟨"p1", ⟨"boom", fun _ => .error ()⟩, .conns [⟨"p2", none⟩]⟩ () 4 rfl rfl⟩

/-! ## C9: a throwing phase is not memoized and may re-run -/

/-- C9: when a node's phase invocation throws, the completed-results map
gains no entry for the node, the in-flight marker is cleared (the state's
`activeExecutions` is exactly as before), the error is recorded under the
node's id — and a later traversal of the same run that reaches the node
invokes the phase again (the trace gains the node id a second time), so
once-per-run memoization only covers successful completions. -/
theorem failed_phase_not_memoized {V C E : Type} (fuel : Nat) (nodeId : String)
    (input : V) (st : ExecState V C E) (node : PhaseNode V C E) (e : E)
    (hmiss : mapGet st.phaseResults nodeId = none)
    (hact : nodeId ∉ st.activeExecutions)
    (hnode : mapGet st.process.phases nodeId = some node)
    (hbad : node.phase.execute input = .error e) :
    (executeNodeRecursive (fuel + 1) nodeId input st).2.phaseResults =
      st.phaseResults ∧
    (executeNodeRecursive (fuel + 1) nodeId input st).2.activeExecutions =
      st.activeExecutions ∧
    (executeNodeRecursive (fuel + 1) nodeId input st).2.errors =
      st.errors ++ [(nodeId, .user e)] ∧
    (executeNodeRecursive (fuel + 1) nodeId input st).2.trace =
      st.trace ++ [nodeId] ∧
    (executeNodeRecursive (fuel + 1) nodeId input
        ((executeNodeRecursive (fuel + 1) nodeId input st).2)).2.trace =
      st.trace ++ [nodeId] ++ [nodeId] := by
  have h1 := execNode_fail fuel nodeId input st node e hmiss hact hnode hbad
  refine ⟨by rw [h1], by rw [h1], by rw [h1], by rw [h1], ?_⟩
  simp only [h1]
  rw [execNode_fail fuel nodeId input
      { st with errors := st.errors ++ [(nodeId, RunError.user e)],
                trace := st.trace ++ [nodeId] } node e hmiss hact hnode hbad]

def c9Proc : Process Nat Unit Unit :=
  { name := "c9", context := (), startPhaseId := "p1",
    phases := [("p1", ⟨"p1", ⟨"boom", fun _ => .error ()⟩, .conns []⟩)] }

theorem failed_phase_not_memoized_witness :
    (executeNodeRecursive 3 "p1" 0 (initialState c9Proc)).2.phaseResults = [] ∧
    (executeNodeRecursive 3 "p1" 0 (initialState c9Proc)).2.activeExecutions = [] ∧
    (executeNodeRecursive 3 "p1" 0 (initialState c9Proc)).2.errors =
      [("p1", .user ())] ∧
    (executeNodeRecursive 3 "p1" 0 (initialState c9Proc)).2.trace = ["p1"] ∧
    (executeNodeRecursive 3 "p1" 0
        ((executeNodeRecursive 3 "p1" 0 (initialState c9Proc)).2)).2.trace =
      ["p1", "p1"] := by
  have h := failed_phase_not_memoized 2 "p1" 0 (initialState c9Proc)
    ⟨"p1", ⟨"boom", fun _ => .error ()⟩, .conns []⟩ () rfl (by decide) rfl rfl
  exact ⟨by simpa [initialState] using h.1, by simpa [initialState] using h.2.1,
    by simpa [initialState] using h.2.2.1, by simpa [initialState] using h.2.2.2.1,
    by simpa [initialState] using h.2.2.2.2⟩

/-! ## C6: a throwing transform isolates only its own edge -/

/-- C6: in the fan-out over a node's connection list, a connection whose
transform throws contributes exactly one recorded error, keyed by that
connection's **target** node id, and the fold continues on the remaining
sibling connections from the same state — so one failing edge never
prevents sibling edges from being evaluated and dispatched (siblings
before the failing edge were already processed by the same fold). -/
theorem failing_transform_isolated {V C E : Type} (fuel : Nat)
    (c : Connection V C E) (rest : List (Connection V C E)) (out : V)
    (st : ExecState V C E) (tr : V → C → Except E (V × C)) (e : E)
    (htr : c.transform = some tr)
    (hfail : tr out st.process.context = .error e) :
    runConnections (executeNodeRecursive fuel) (c :: rest) out st =
      runConnections (executeNodeRecursive fuel) rest out
        { st with errors := st.errors ++ [(c.targetPhaseNodeId, .user e)] } := by
  simp [runConnections, htr, hfail]

def c6Proc : Process Nat Unit Unit :=
  { name := "c6", context := (), startPhaseId := "p1",
    phases :=
      [("p1", ⟨"p1", ⟨"p1", fun n => .ok (n + 1)⟩, .conns
          [⟨"p2", none⟩, ⟨"p3", some (fun _ _ => .error ())⟩, ⟨"p4", none⟩]⟩),
       ("p2", ⟨"p2", ⟨"p2", fun n => .ok (n + 10)⟩, .conns []⟩),
       ("p3", ⟨"p3", ⟨"p3", fun n => .ok (n + 20)⟩, .conns []⟩),
       ("p4", ⟨"p4", ⟨"p4", fun n => .ok (n + 30)⟩, .conns []⟩)] }

def c6St : ExecState Nat Unit Unit :=
  (executeNodeRecursive 10 "p1" 0 (initialState c6Proc)).2

theorem failing_transform_isolated_witness :
    runConnections (executeNodeRecursive 9)
        [⟨"p3", some (fun _ _ => .error ())⟩, ⟨"p4", none⟩] 1 c6St =
      runConnections (executeNodeRecursive 9) [(⟨"p4", none⟩ : Connection Nat Unit Unit)] 1
        { c6St with errors := c6St.errors ++ [("p3", .user ())] } ∧
    c6St.errors = [("p3", .user ())] ∧
    c6St.trace = ["p1", "p2", "p4"] ∧
    c6St.results = [("p2", 11), ("p4", 31)] :=
  ⟨failing_transform_isolated 9 ⟨"p3", some (fun _ _ => .error ())⟩
      [⟨"p4", none⟩] 1 c6St (fun _ _ => .error ()) () rfl rfl,
   by decide, by decide, by decide⟩

/-! ## C3: once-per-run memoization

The invariant `StInv` says the invocation trace is duplicate-free and
every traced node already has a memoized result; it is preserved by the
whole traversal provided every phase invocation succeeds (`AllSucceed` —
by C9, a *failing* phase is deliberately not memoized and may re-run). -/

/-- Run invariant: no node id occurs twice in the invocation trace, and
every invoked node has a memoized result. -/
def StInv {V C E : Type} (st : ExecState V C E) : Prop :=
  st.trace.Nodup ∧ ∀ id ∈ st.trace, (mapGet st.phaseResults id).isSome = true

/-- Every phase of the collection succeeds on every input. -/
def AllSucceed {V C E : Type} (phs : List (String × PhaseNode V C E)) : Prop :=
  ∀ kv ∈ phs, ∀ input : V, ∃ out, kv.2.phase.execute input = Except.ok out

theorem runConnections_inv {V C E : Type}
    (execChild : String → V → ExecState V C E → Except (RunError E) V × ExecState V C E)
    (hchild : ∀ (id : String) (inp : V) (st : ExecState V C E),
      StInv st → AllSucceed st.process.phases →
      StInv (execChild id inp st).2 ∧
      (execChild id inp st).2.process.phases = st.process.phases) :
    ∀ (cs : List (Connection V C E)) (out : V) (st : ExecState V C E),
      StInv st → AllSucceed st.process.phases →
      StInv (runConnections execChild cs out st) ∧
      (runConnections execChild cs out st).process.phases = st.process.phases := by
  intro cs
  induction cs with
  | nil =>
    intro out st h1 h2
    exact ⟨h1, rfl⟩
  | cons c rest ih =>
    intro out st h1 h2
    cases htr : c.transform with
    | none =>
      obtain ⟨ha, hb⟩ := hchild c.targetPhaseNodeId out st h1 h2
      have h2' : AllSucceed (execChild c.targetPhaseNodeId out st).2.process.phases := by
        rw [hb]; exact h2
      obtain ⟨ga, gb⟩ := ih out _ ha h2'
      simp only [runConnections, htr]
      exact ⟨ga, gb.trans hb⟩
    | some tr =>
      cases htrr : tr out st.process.context with
      | error e =>
        have h1' : StInv
            { st with errors := st.errors ++ [(c.targetPhaseNodeId, RunError.user e)] } := h1
        obtain ⟨ga, gb⟩ := ih out _ h1' h2
        simp only [runConnections, htr, htrr]
        exact ⟨ga, gb⟩
      | ok pair =>
        obtain ⟨ni, nc⟩ := pair
        have h1' : StInv { st with process := { st.process with context := nc } } := h1
        have h2' : AllSucceed
            ({ st with process := { st.process with context := nc } } :
              ExecState V C E).process.phases := h2
        obtain ⟨ha, hb⟩ := hchild c.targetPhaseNodeId ni _ h1' h2'
        have h2'' : AllSucceed (execChild c.targetPhaseNodeId ni
            { st with process := { st.process with context := nc } }).2.process.phases := by
          rw [hb]; exact h2'
        obtain ⟨ga, gb⟩ := ih out _ ha h2''
        simp only [runConnections, htr, htrr]
        exact ⟨ga, (gb.trans hb : _)⟩

theorem execNode_inv {V C E : Type} :
    ∀ (fuel : Nat) (nodeId : String) (input : V) (st : ExecState V C E),
      StInv st → AllSucceed st.process.phases →
      StInv (executeNodeRecursive fuel nodeId input st).2 ∧
      (executeNodeRecursive fuel nodeId input st).2.process.phases = st.process.phases := by
  intro fuel
  induction fuel with
  | zero =>
    intro nodeId input st h1 h2
    exact ⟨h1, rfl⟩
  | succ f ih =>
    intro nodeId input st h1 h2
    cases hpr : mapGet st.phaseResults nodeId with
    | some v =>
      rw [execNode_cached f nodeId input st v hpr]
      exact ⟨h1, rfl⟩
    | none =>
      by_cases hact : nodeId ∈ st.activeExecutions
      · have hred : executeNodeRecursive (f + 1) nodeId input st =
            (.error (.pendingShared nodeId), st) := by
          simp [executeNodeRecursive, hpr, hact]
        rw [hred]
        exact ⟨h1, rfl⟩
      · cases hnode : mapGet st.process.phases nodeId with
        | none =>
          have hred : executeNodeRecursive (f + 1) nodeId input st =
              (.error (.nodeNotFound nodeId),
               { st with errors := st.errors ++ [(nodeId, .nodeNotFound nodeId)] }) := by
            simp [executeNodeRecursive, hpr, hact, hnode]
          rw [hred]
          exact ⟨h1, rfl⟩
        | some node =>
          obtain ⟨out, hok⟩ := h2 (nodeId, node) (mem_of_mapGet_some hnode) input
          have hnotin : nodeId ∉ st.trace := by
            intro hmem
            have hsome := h1.2 nodeId hmem
            rw [hpr] at hsome
            simp at hsome
          have hInv2 : StInv (markInvoked nodeId out st) := by
            constructor
            · show (st.trace ++ [nodeId]).Nodup
              rw [List.nodup_append]
              refine ⟨h1.1, List.nodup_singleton _, ?_⟩
              intro x hx hx'
              simp at hx'
              subst hx'
              exact hnotin hx
            · intro id hid
              show (mapGet (st.phaseResults ++ [(nodeId, out)]) id).isSome = true
              rcases List.mem_append.mp hid with hl | hr
              · exact mapGet_append_isSome _ (h1.2 id hl)
              · simp at hr
                subst hr
                rw [mapGet_append_none _ hpr]
                simp [mapGet]
          cases hnext : node.next with
          | conns cs =>
            cases cs with
            | nil =>
              rw [execNode_conns_nil f nodeId input st node out hpr hact hnode hok hnext]
              exact ⟨hInv2, rfl⟩
            | cons c cs' =>
              rw [execNode_conns f nodeId input st node out c cs' hpr hact hnode hok hnext]
              have hall2 : AllSucceed (markInvoked nodeId out st).process.phases := h2
              obtain ⟨ga, gb⟩ := runConnections_inv (executeNodeRecursive f)
                (fun id inp st' i1 i2 => ih id inp st' i1 i2)
                (c :: cs') out (markInvoked nodeId out st) hInv2 hall2
              exact ⟨ga, gb⟩
          | term tid tf =>
            cases tf with
            | none =>
              rw [execNode_term_none f nodeId input st node out tid hpr hact hnode hok hnext]
              exact ⟨hInv2, rfl⟩
            | some g =>
              rw [execNode_term_some f nodeId input st node out tid g hpr hact hnode hok hnext]
              exact ⟨hInv2, rfl⟩

/-- C3: in any run launched through `executeProcess` in which every
phase invocation succeeds, the invocation trace is duplicate-free — each
node's phase runs at most once no matter how many (possibly cyclic)
paths reach it — and a node with a memoized result is returned directly,
with no state change and no re-invocation; together with the concrete
cyclic witness below this is the once-per-run guarantee. -/
theorem phases_execute_once_per_run {V C E : Type} (p : Process V C E) (input : V)
    (fuel : Nat) (st : ExecState V C E)
    (hall : AllSucceed p.phases)
    (hrun : executeProcess fuel p input = .ok st) :
    st.trace.Nodup ∧
    ∀ (st' : ExecState V C E) (id : String) (v inp : V) (f : Nat),
      mapGet st'.phaseResults id = some v →
      executeNodeRecursive (f + 1) id inp st' = (.ok v, st') := by
  constructor
  · by_cases hval : validateProcess p = []
    · have hs := validateProcess_start_isSome hval
      have hrw : executeProcess fuel p input =
          .ok (executeNodeRecursive fuel p.startPhaseId input (initialState p)).2 := by
        simp [executeProcess, hval, initialState, Option.isNone_iff_eq_none,
              Option.isSome_iff_ne_none.mp hs]
      rw [hrw] at hrun
      have hInv0 : StInv (initialState p) :=
        ⟨List.nodup_nil, by intro id h; simp [initialState] at h⟩
      have hmain := (execNode_inv fuel p.startPhaseId input (initialState p) hInv0 hall).1
      rw [← Except.ok.inj hrun]
      exact hmain.1
    · simp [executeProcess, hval] at hrun
  · exact fun st' id v inp f h => execNode_cached f id inp st' v h

/-- C3 witness data: a cyclic graph `p1 → p2 → {p1, p3}`.  The cycle
`p2 → p1` hits the memoized result of the already-completed `p1`. -/
def cycProc : Process Nat Unit Unit :=
  { name := "cyc", context := (), startPhaseId := "p1",
    phases :=
      [("p1", ⟨"p1", ⟨"phase1", fun n => .ok (n + 1)⟩, .conns [⟨"p2", none⟩]⟩),
       ("p2", ⟨"p2", ⟨"phase2", fun n => .ok (n + 10)⟩,
          .conns [⟨"p1", none⟩, ⟨"p3", none⟩]⟩),
       ("p3", ⟨"p3", ⟨"phase3", fun n => .ok (n + 100)⟩, .conns []⟩)] }

def cycSt : ExecState Nat Unit Unit :=
  (executeNodeRecursive 10 "p1" 0 (initialState cycProc)).2

theorem phases_execute_once_per_run_witness :
    cycSt.trace.Nodup ∧ cycSt.trace = ["p1", "p2", "p3"] ∧
    executeNodeRecursive 6 "p1" 42 cycSt = (.ok 1, cycSt) :=
  ⟨(phases_execute_once_per_run cycProc 0 10 cycSt
      (by
        intro kv hkv i
        simp [cycProc] at hkv
        rcases hkv with h | h | h <;> subst h <;> exact ⟨_, rfl⟩) rfl).1,
   by decide,
   (phases_execute_once_per_run cycProc 0 10 cycSt
      (by
        intro kv hkv i
        simp [cycProc] at hkv
        rcases hkv with h | h | h <;> subst h <;> exact ⟨_, rfl⟩) rfl).2
     cycSt "p1" 1 42 5 (by decide)⟩

end Zealux
